import Mathlib

/-!
Verification of the Blender-addons repository's grid-placement and
origin-shift/restore logic, shallowly embedded in Lean 4.

Coordinates are modelled as exact rationals (the spec's "exact modulo
floating-point accumulation error"); a fragment's `matrix_world` is an affine
transform (a linear part plus a translation), and a fragment's `bound_box` is a
list of local corner points (eight in the host, but a list here so that the
degenerate "no corners" edge case of empty geometry is representable).

Host assumptions made explicit by the spec and the claims are built into the
state-transition model: reparenting preserves each fragment's world transform,
and moving the anchor (the parent Empty) translates every child's world
transform rigidly by the same vector.
-/

/-- A 3-component point/vector with rational coordinates, the model of
`mathutils.Vector` as used by the scripts. -/
structure Vec3 where
  x : ℚ
  y : ℚ
  z : ℚ
deriving DecidableEq, Repr

def Vec3.add (a b : Vec3) : Vec3 := ⟨a.x + b.x, a.y + b.y, a.z + b.z⟩

def Vec3.sub (a b : Vec3) : Vec3 := ⟨a.x - b.x, a.y - b.y, a.z - b.z⟩

def Vec3.neg (a : Vec3) : Vec3 := ⟨-a.x, -a.y, -a.z⟩

/-- Scalar multiple of a vector. -/
def Vec3.smul (q : ℚ) (a : Vec3) : Vec3 := ⟨q * a.x, q * a.y, q * a.z⟩

theorem Vec3.ext' (a b : Vec3) (hx : a.x = b.x) (hy : a.y = b.y) (hz : a.z = b.z) :
    a = b := by
  cases a; cases b; simp_all

theorem Vec3.add_assoc₀ (a b c : Vec3) : (a.add b).add c = a.add (b.add c) := by
  apply Vec3.ext' <;> simp [Vec3.add] <;> ring

theorem Vec3.zero_add₀ (a : Vec3) : Vec3.add ⟨0, 0, 0⟩ a = a := by
  apply Vec3.ext' <;> simp [Vec3.add]

theorem Vec3.add_zero₀ (a : Vec3) : a.add ⟨0, 0, 0⟩ = a := by
  apply Vec3.ext' <;> simp [Vec3.add]

theorem Vec3.add_comm₀ (a b : Vec3) : a.add b = b.add a := by
  apply Vec3.ext' <;> simp [Vec3.add] <;> ring

theorem Vec3.neg_add_cancel₀ (a : Vec3) : a.neg.add a = ⟨0, 0, 0⟩ := by
  apply Vec3.ext' <;> simp [Vec3.add, Vec3.neg]

theorem Vec3.sub_eq_add_neg₀ (a b : Vec3) : a.sub b = a.add b.neg := by
  apply Vec3.ext' <;> simp [Vec3.add, Vec3.neg, Vec3.sub] <;> ring

instance : Zero Vec3 := ⟨⟨0, 0, 0⟩⟩

instance : Add Vec3 := ⟨Vec3.add⟩

instance : Neg Vec3 := ⟨Vec3.neg⟩

instance : Sub Vec3 := ⟨Vec3.sub⟩

instance : AddCommGroup Vec3 where
  add := Vec3.add
  zero := ⟨0, 0, 0⟩
  neg := Vec3.neg
  sub := Vec3.sub
  nsmul := nsmulRec
  zsmul := zsmulRec
  nsmul_zero := fun _ => rfl
  nsmul_succ := fun _ _ => rfl
  zsmul_zero' := fun _ => rfl
  zsmul_succ' := fun _ _ => rfl
  zsmul_neg' := fun _ _ => rfl
  add_assoc := Vec3.add_assoc₀
  zero_add := Vec3.zero_add₀
  add_zero := Vec3.add_zero₀
  add_comm := Vec3.add_comm₀
  neg_add_cancel := Vec3.neg_add_cancel₀
  sub_eq_add_neg := Vec3.sub_eq_add_neg₀

theorem Vec3.add_def (a b : Vec3) : a + b = ⟨a.x + b.x, a.y + b.y, a.z + b.z⟩ := rfl

theorem Vec3.sub_def (a b : Vec3) : a - b = ⟨a.x - b.x, a.y - b.y, a.z - b.z⟩ := rfl

theorem Vec3.neg_def (a : Vec3) : -a = ⟨-a.x, -a.y, -a.z⟩ := rfl

theorem Vec3.zero_def : (0 : Vec3) = ⟨0, 0, 0⟩ := rfl

theorem Vec3.zero_x : (0 : Vec3).x = 0 := rfl

theorem Vec3.zero_y : (0 : Vec3).y = 0 := rfl

theorem Vec3.zero_z : (0 : Vec3).z = 0 := rfl

/-- A 3×3 matrix given by its rows: the linear (rotation/scale/shear) part of a
world transform. -/
structure Mat3 where
  r0 : Vec3
  r1 : Vec3
  r2 : Vec3
deriving DecidableEq, Repr

def Vec3.dot (a b : Vec3) : ℚ := a.x * b.x + a.y * b.y + a.z * b.z

def Mat3.mulVec (m : Mat3) (v : Vec3) : Vec3 :=
  ⟨m.r0.dot v, m.r1.dot v, m.r2.dot v⟩

/-- The identity linear part. -/
def Mat3.id : Mat3 := ⟨⟨1, 0, 0⟩, ⟨0, 1, 0⟩, ⟨0, 0, 1⟩⟩

/-- An affine world transform: `apply v = lin · v + translation`, the model of a
Blender object's `matrix_world` acting on a point. -/
structure Affine where
  lin : Mat3
  translation : Vec3
deriving DecidableEq, Repr

def Affine.apply (a : Affine) (v : Vec3) : Vec3 := a.lin.mulVec v + a.translation

/-- A mesh fragment: its world transform (`matrix_world`) and its local
axis-aligned `bound_box` corner list (eight corners for real host geometry,
empty for degenerate geometry). -/
structure Fragment where
  matrix_world : Affine
  bound_box : List Vec3
deriving DecidableEq, Repr

/-- Translating a fragment rigidly by `d` (what the host does to a child when
its parent anchor's location increases by `d`). -/
def Fragment.translate (f : Fragment) (d : Vec3) : Fragment :=
  { f with matrix_world := { f.matrix_world with translation := f.matrix_world.translation + d } }

/-- `obj.matrix_world @ Vector(v)` for every corner `v` of every fragment, in
scene order: the `all_coords` / `coords` list built by both scripts. -/
def worldCoords (objs : List Fragment) : List Vec3 :=
  objs.flatMap (fun o => o.bound_box.map o.matrix_world.apply)

/-- `grid_cell_center` from `CE-Tree-Grid.py` (lines 20-21) and
`CE-trees-to-grid.py` (lines 22-23):
`Vector((x*s + s/2, -y*s - s/2, 0))`. -/
def grid_cell_center (cell_x cell_y spacing : ℚ) : Vec3 :=
  ⟨cell_x * spacing + spacing / 2, -cell_y * spacing - spacing / 2, 0⟩

/-- `compute_world_bbox` from `CE-trees-to-grid.py` (lines 66-82): collect the
world-space images of every fragment's bound-box corners; on an empty
collection return `(None, None, None)`, otherwise the component-wise min
corner, max corner, and their midpoint. -/
def compute_world_bbox (objs : List Fragment) : Option (Vec3 × Vec3 × Vec3) :=
  match worldCoords objs with
  | [] => none
  | c :: cs =>
    let min_corner : Vec3 :=
      ⟨(cs.map Vec3.x).foldl min c.x, (cs.map Vec3.y).foldl min c.y, (cs.map Vec3.z).foldl min c.z⟩
    let max_corner : Vec3 :=
      ⟨(cs.map Vec3.x).foldl max c.x, (cs.map Vec3.y).foldl max c.y, (cs.map Vec3.z).foldl max c.z⟩
    some (min_corner, max_corner, Vec3.smul (1 / 2) (min_corner + max_corner))

/-- `align_group_with_empty` from `CE-Tree-Grid.py` (lines 55-76).  An empty
input is an immediate bare `return` (no anchor: `none`).  Otherwise a fresh
Empty is created at the origin, the fragments are parented to it (the host
preserves their world transforms), `all_coords` is gathered, and - when it is
nonempty - the offset `(target.x - center.x, target.y - center.y,
-min_corner.z)` is added to the Empty's location, which moves every child
rigidly by the same vector.  The result is the final anchor location together
with the fragments' final world transforms. -/
def align_group_with_empty (imported_objs : List Fragment) (cell_x cell_y spacing : ℚ) :
    Option (Vec3 × List Fragment) :=
  match imported_objs with
  | [] => none
  | _ :: _ =>
    let emptyLoc : Vec3 := 0
    match worldCoords imported_objs with
    | [] => some (emptyLoc, imported_objs)
    | c :: cs =>
      let min_corner : Vec3 :=
        ⟨(cs.map Vec3.x).foldl min c.x, (cs.map Vec3.y).foldl min c.y, (cs.map Vec3.z).foldl min c.z⟩
      let max_corner : Vec3 :=
        ⟨(cs.map Vec3.x).foldl max c.x, (cs.map Vec3.y).foldl max c.y, (cs.map Vec3.z).foldl max c.z⟩
      let center := Vec3.smul (1 / 2) (min_corner + max_corner)
      let target := grid_cell_center cell_x cell_y spacing
      let offset : Vec3 := ⟨target.x - center.x, target.y - center.y, -min_corner.z⟩
      some (emptyLoc + offset, imported_objs.map (fun o => o.translate offset))

/-- `align_group_with_empty` from `CE-trees-to-grid.py` (lines 84-97): the
variant that calls `compute_world_bbox` and returns the Empty unmoved when the
bounding box is undefined. -/
def align_group_with_empty2 (imported_objs : List Fragment) (cell_x cell_y spacing : ℚ) :
    Option (Vec3 × List Fragment) :=
  match imported_objs with
  | [] => none
  | _ :: _ =>
    let emptyLoc : Vec3 := 0
    match compute_world_bbox imported_objs with
    | none => some (emptyLoc, imported_objs)
    | some (min_corner, _max_corner, center) =>
      let target := grid_cell_center cell_x cell_y spacing
      let offset : Vec3 := ⟨target.x - center.x, target.y - center.y, -min_corner.z⟩
      some (emptyLoc + offset, imported_objs.map (fun o => o.translate offset))

/-- Modelled from the spec's words for comparison with `compute_world_bbox`
(claim C4): "for every fragment, transform each of its local bounding-box
corners into world space, and accumulate the component-wise minimum and maximum
across all corners of all fragments", with `center = (min_corner +
max_corner) / 2`.  Accumulation is a single fold carrying the running
component-wise min/max pair; `bbox_acc` is its step. -/
def bbox_acc (acc : Option (Vec3 × Vec3)) (p : Vec3) : Option (Vec3 × Vec3) :=
  match acc with
  | none => some (p, p)
  | some (lo, hi) =>
      some (⟨min lo.x p.x, min lo.y p.y, min lo.z p.z⟩,
            ⟨max hi.x p.x, max hi.y p.y, max hi.z p.z⟩)

/-- Modelled from the spec: the union bounding box as the spec words it, a fold
of `bbox_acc` over the world-space corners with `center = (min_corner +
max_corner) / 2`, to be compared with the source-derived `compute_world_bbox`. -/
def union_bbox_spec (objs : List Fragment) : Option (Vec3 × Vec3 × Vec3) :=
  match (worldCoords objs).foldl bbox_acc none with
  | none => none
  | some (lo, hi) => some (lo, hi, Vec3.smul (1 / 2) (lo + hi))

/-!
## The LOD-editing session (`Edit-large-3D-LOD-model.py` and
`Edit-large-3d_LOD-models-improved.py`)

A scene is a list of mesh objects; each object has a unique host name, a
`location`, a fixed linear part of its world matrix (rotation/scale; the
scripts never change it and the objects are unparented, so
`matrix_world @ p = lin · p + location`), and its mesh vertex coordinates.
The module-level globals (`original_positions_store`,
`original_geometry_store`, `selected_reference_name`, `scene_offset_vector`)
become fields of an explicit state record, and each operator's `execute`
becomes a state transition returning `FINISHED` or `CANCELLED`.  The two
script variants are line-for-line identical in this logic (the improved one
only drops a debug print), so one embedding covers both.
Blender keys objects by unique names; `obj != ref_obj` and
`bpy.data.objects.get(name)` are therefore modelled by name comparison.
-/

/-- One mesh object of the scene. -/
structure MeshObj where
  name : String
  location : Vec3
  lin : Mat3
  verts : List Vec3
deriving DecidableEq, Repr

/-- `obj.matrix_world @ p` for an unparented object. -/
def MeshObj.world (o : MeshObj) (p : Vec3) : Vec3 := o.lin.mulVec p + o.location

/-- The module-level global storage of the LOD scripts plus the scene itself. -/
structure LODState where
  objs : List MeshObj
  original_positions_store : List (String × Vec3)
  original_geometry_store : List (String × List Vec3)
  selected_reference_name : Option String
  scene_offset_vector : Vec3
deriving DecidableEq, Repr

/-- An operator's return status. -/
inductive OpResult where
  | FINISHED
  | CANCELLED
deriving DecidableEq, Repr

/-- `bpy.data.objects.get(name)` restricted to the scene's mesh objects. -/
def findObj (objs : List MeshObj) (n : String) : Option MeshObj :=
  objs.find? (fun o => o.name == n)

/-- Sum of a list of vectors (`sum((v.co for v in bm.verts), Vector())`). -/
def vsum (l : List Vec3) : Vec3 := l.foldl (· + ·) 0

/-- The geometry center computed by `OBJECT_OT_MoveReferenceToOrigin`: the mean
of the mesh's local vertex coordinates, or the zero vector when there are no
vertices. -/
def geometryCenter (verts : List Vec3) : Vec3 :=
  match verts with
  | [] => 0
  | _ :: _ => Vec3.smul (1 / (verts.length : ℚ)) (vsum verts)

/-- `OBJECT_OT_MoveReferenceToOrigin.execute` (lines 67-139 of
`Edit-large-3D-LOD-model.py`; lines 63-118 of the improved variant): guard on a
selected, existing reference; clear and refill the position store from every
mesh object's current location; store a copy of the reference mesh; compute the
reference's local geometry center, shift its vertices by `-center`, set its
location to the origin; record `offset = -(matrix_world @ center)` as the scene
offset and add it to every other mesh object's location. -/
def moveReferenceToOrigin (st : LODState) : OpResult × LODState :=
  match st.selected_reference_name with
  | none => (OpResult.CANCELLED, st)
  | some rname =>
    match findObj st.objs rname with
    | none => (OpResult.CANCELLED, st)
    | some ref =>
      let stored_pos := st.objs.map (fun o => (o.name, o.location))
      let stored_geo := [(ref.name, ref.verts)]
      let gc := geometryCenter ref.verts
      let gcWorld := ref.world gc
      let offv := -gcWorld
      let newObjs := st.objs.map (fun o =>
        if o.name = rname then
          { o with verts := o.verts.map (fun v => v - gc), location := 0 }
        else
          { o with location := o.location + offv })
      (OpResult.FINISHED,
        { st with
            objs := newObjs
            original_positions_store := stored_pos
            original_geometry_store := stored_geo
            scene_offset_vector := offv })

/-- Set the location of the (unique-named) object called `n`, a no-op when no
object has that name (`bpy.data.objects.get` returning `None`). -/
def setLoc (objs : List MeshObj) (n : String) (l : Vec3) : List MeshObj :=
  objs.map (fun o => if o.name = n then { o with location := l } else o)

/-- Replace the mesh data of the (unique-named) object called `n`, a no-op when
no object has that name. -/
def setVerts (objs : List MeshObj) (n : String) (vs : List Vec3) : List MeshObj :=
  objs.map (fun o => if o.name = n then { o with verts := vs } else o)

/-- `OBJECT_OT_RestoreOriginalPosition.execute` (lines 193-226; improved
variant lines 158-185): cancelled when no positions are stored; otherwise every
stored `(name, location)` is written back in order, every stored mesh copy is
written back, and all session storage (positions, geometry, cumulative offset)
is cleared. -/
def restoreOriginalPosition (st : LODState) : OpResult × LODState :=
  match st.original_positions_store with
  | [] => (OpResult.CANCELLED, st)
  | _ :: _ =>
    let objs1 := st.original_positions_store.foldl (fun os p => setLoc os p.1 p.2) st.objs
    let objs2 := st.original_geometry_store.foldl (fun os p => setVerts os p.1 p.2) objs1
    (OpResult.FINISHED,
      { st with
          objs := objs2
          original_positions_store := []
          original_geometry_store := []
          scene_offset_vector := 0 })

/-- `OBJECT_OT_RegisterNewMeshes.execute` (lines 152-180; improved variant
lines 127-149): cancelled when no positions are stored; otherwise every mesh
object whose name is not already stored is appended with
`location - scene_offset_vector` (a no-op append when there are none). -/
def registerNewMeshes (st : LODState) : OpResult × LODState :=
  match st.original_positions_store with
  | [] => (OpResult.CANCELLED, st)
  | _ :: _ =>
    let stored_names := st.original_positions_store.map Prod.fst
    let new_meshes := st.objs.filter (fun o => !(stored_names.contains o.name))
    (OpResult.FINISHED,
      { st with
          original_positions_store :=
            st.original_positions_store ++
              new_meshes.map (fun o => (o.name, o.location - st.scene_offset_vector)) })

/-! ## Component and fold helper lemmas -/

theorem Vec3.add_x (a b : Vec3) : (a + b).x = a.x + b.x := rfl

theorem Vec3.add_y (a b : Vec3) : (a + b).y = a.y + b.y := rfl

theorem Vec3.add_z (a b : Vec3) : (a + b).z = a.z + b.z := rfl

theorem Vec3.smul_x (q : ℚ) (a : Vec3) : (Vec3.smul q a).x = q * a.x := rfl

theorem Vec3.smul_y (q : ℚ) (a : Vec3) : (Vec3.smul q a).y = q * a.y := rfl

theorem Vec3.smul_z (q : ℚ) (a : Vec3) : (Vec3.smul q a).z = q * a.z := rfl

theorem foldl_min_map_add (l : List ℚ) (a c : ℚ) :
    (l.map (fun q => q + c)).foldl min (a + c) = l.foldl min a + c := by
  induction l generalizing a with
  | nil => rfl
  | cons b bs ih => simp only [List.map_cons, List.foldl_cons, min_add_add_right, ih]

theorem foldl_max_map_add (l : List ℚ) (a c : ℚ) :
    (l.map (fun q => q + c)).foldl max (a + c) = l.foldl max a + c := by
  induction l generalizing a with
  | nil => rfl
  | cons b bs ih => simp only [List.map_cons, List.foldl_cons, max_add_add_right, ih]

theorem Fragment.translate_apply (f : Fragment) (d v : Vec3) :
    (f.translate d).matrix_world.apply v = f.matrix_world.apply v + d := by
  simp [Fragment.translate, Affine.apply, add_assoc]

theorem Fragment.translate_bound_box (f : Fragment) (d : Vec3) :
    (f.translate d).bound_box = f.bound_box := rfl

theorem worldCoords_translate (objs : List Fragment) (d : Vec3) :
    worldCoords (objs.map fun o => o.translate d) = (worldCoords objs).map (fun p => p + d) := by
  simp only [worldCoords, List.flatMap_map, List.map_flatMap, Function.comp,
    Fragment.translate_bound_box, List.map_map, Fragment.translate_apply]
  congr 1
  funext a
  congr 1
  funext v
  exact Fragment.translate_apply a d v

theorem compute_world_bbox_none (objs : List Fragment) (h : worldCoords objs = []) :
    compute_world_bbox objs = none := by
  simp only [compute_world_bbox, h]

theorem compute_world_bbox_eq (objs : List Fragment) (c : Vec3) (cs : List Vec3)
    (h : worldCoords objs = c :: cs) :
    compute_world_bbox objs = some
      (⟨(cs.map Vec3.x).foldl min c.x, (cs.map Vec3.y).foldl min c.y, (cs.map Vec3.z).foldl min c.z⟩,
       ⟨(cs.map Vec3.x).foldl max c.x, (cs.map Vec3.y).foldl max c.y, (cs.map Vec3.z).foldl max c.z⟩,
       Vec3.smul (1 / 2)
         (Vec3.mk ((cs.map Vec3.x).foldl min c.x) ((cs.map Vec3.y).foldl min c.y)
            ((cs.map Vec3.z).foldl min c.z) +
          Vec3.mk ((cs.map Vec3.x).foldl max c.x) ((cs.map Vec3.y).foldl max c.y)
            ((cs.map Vec3.z).foldl max c.z))) := by
  simp only [compute_world_bbox, h]

theorem map_comp_add_x (cs : List Vec3) (d : Vec3) :
    (cs.map (fun p => p + d)).map Vec3.x = (cs.map Vec3.x).map (fun q => q + d.x) := by
  simp only [List.map_map]
  congr 1

theorem map_comp_add_y (cs : List Vec3) (d : Vec3) :
    (cs.map (fun p => p + d)).map Vec3.y = (cs.map Vec3.y).map (fun q => q + d.y) := by
  simp only [List.map_map]
  congr 1

theorem map_comp_add_z (cs : List Vec3) (d : Vec3) :
    (cs.map (fun p => p + d)).map Vec3.z = (cs.map Vec3.z).map (fun q => q + d.z) := by
  simp only [List.map_map]
  congr 1

theorem compute_world_bbox_translate (objs : List Fragment) (d mn mx ctr : Vec3)
    (h : compute_world_bbox objs = some (mn, mx, ctr)) :
    compute_world_bbox (objs.map fun o => o.translate d) = some (mn + d, mx + d, ctr + d) := by
  cases hw : worldCoords objs with
  | nil => rw [compute_world_bbox_none objs hw] at h; cases h
  | cons c cs =>
    rw [compute_world_bbox_eq objs c cs hw] at h
    simp only [Option.some.injEq, Prod.mk.injEq] at h
    obtain ⟨hmn, hmx, hctr⟩ := h
    subst hmn hmx hctr
    have hw2 : worldCoords (objs.map fun o => o.translate d)
        = (c + d) :: cs.map (fun p => p + d) := by
      rw [worldCoords_translate, hw, List.map_cons]
    rw [compute_world_bbox_eq _ _ _ hw2]
    simp only [Option.some.injEq, Prod.mk.injEq]
    refine ⟨?_, ?_, ?_⟩ <;> apply Vec3.ext' <;>
      simp only [map_comp_add_x, map_comp_add_y, map_comp_add_z, Vec3.add_x, Vec3.add_y,
        Vec3.add_z, Vec3.smul_x, Vec3.smul_y, Vec3.smul_z, foldl_min_map_add,
        foldl_max_map_add] <;> ring

theorem worldCoords_nil_of_bbox_none (objs : List Fragment)
    (h : compute_world_bbox objs = none) : worldCoords objs = [] := by
  cases hw : worldCoords objs with
  | nil => rfl
  | cons c cs => rw [compute_world_bbox_eq objs c cs hw] at h; cases h

theorem align_group_with_empty_of_bbox (objs : List Fragment) (cx cy s : ℚ) (mn mx ctr : Vec3)
    (h : compute_world_bbox objs = some (mn, mx, ctr)) :
    align_group_with_empty objs cx cy s =
      some ((0 : Vec3) +
          ⟨(grid_cell_center cx cy s).x - ctr.x, (grid_cell_center cx cy s).y - ctr.y, -mn.z⟩,
        objs.map fun o => o.translate
          ⟨(grid_cell_center cx cy s).x - ctr.x, (grid_cell_center cx cy s).y - ctr.y, -mn.z⟩) := by
  cases objs with
  | nil => rw [compute_world_bbox_none [] rfl] at h; cases h
  | cons o rest =>
    cases hw : worldCoords (o :: rest) with
    | nil => rw [compute_world_bbox_none _ hw] at h; cases h
    | cons c cs =>
      rw [compute_world_bbox_eq _ _ _ hw] at h
      simp only [Option.some.injEq, Prod.mk.injEq] at h
      obtain ⟨hmn, hmx, hctr⟩ := h
      subst hmn hmx hctr
      simp only [align_group_with_empty, hw]

theorem align_group_with_empty2_eq (objs : List Fragment) (cx cy s : ℚ) :
    align_group_with_empty2 objs cx cy s = align_group_with_empty objs cx cy s := by
  cases objs with
  | nil => rfl
  | cons o rest =>
    cases hw : worldCoords (o :: rest) with
    | nil =>
      simp only [align_group_with_empty, align_group_with_empty2, compute_world_bbox, hw]
    | cons c cs =>
      simp only [align_group_with_empty, align_group_with_empty2, compute_world_bbox, hw]

theorem Fragment.translate_zero (f : Fragment) : f.translate (0 : Vec3) = f := by
  simp [Fragment.translate]

/-! ## Claim theorems for the grid-placement scripts -/

/-- C3: the Grid Cell world-space center is exactly
`(col*s + s/2, -row*s - s/2, 0)`; its Z component is always 0, adjacent
columns differ by `s` in X, adjacent rows by `s` in Y, and for positive
spacing the center's Y strictly decreases as the row index grows. -/
theorem C3_grid_cell_center_formula (col row s : ℚ) :
    grid_cell_center col row s = ⟨col * s + s / 2, -row * s - s / 2, 0⟩ ∧
    (grid_cell_center col row s).z = 0 ∧
    (grid_cell_center (col + 1) row s).x = (grid_cell_center col row s).x + s ∧
    (grid_cell_center col (row + 1) s).y = (grid_cell_center col row s).y - s ∧
    (0 < s → (grid_cell_center col (row + 1) s).y < (grid_cell_center col row s).y) := by
  refine ⟨rfl, rfl, ?_, ?_, ?_⟩
  · show (col + 1) * s + s / 2 = col * s + s / 2 + s
    ring
  · show -(row + 1) * s - s / 2 = -row * s - s / 2 - s
    ring
  · intro hs
    show -(row + 1) * s - s / 2 < -row * s - s / 2
    nlinarith

/-- Instance of `C3_grid_cell_center_formula` at column 0, row 0, spacing 50:
the row-1 center lies strictly below (in Y) the row-0 center. -/
theorem C3_grid_cell_center_formula_witness :
    (grid_cell_center 0 (0 + 1) 50).y < (grid_cell_center 0 0 50).y :=
  (C3_grid_cell_center_formula 0 0 50).2.2.2.2 (by norm_num)

/-- C5: placement of an empty fragment sequence is a no-op returning nothing
in both script variants: no anchor is created and nothing is moved. -/
theorem C5_empty_sequence_noop (cx cy s : ℚ) :
    align_group_with_empty [] cx cy s = none ∧ align_group_with_empty2 [] cx cy s = none :=
  ⟨rfl, rfl⟩

/-- C6: a non-empty group none of whose fragments contributes a bounding-box
corner collects no coordinates; both variants create the anchor but leave it
unmoved at the origin with every fragment unchanged (`CE-trees-to-grid.py`
returns early via `compute_world_bbox = None`), and no min/max over an empty
collection is evaluated. -/
theorem C6_degenerate_geometry (o : Fragment) (rest : List Fragment) (cx cy s : ℚ)
    (h : worldCoords (o :: rest) = []) :
    align_group_with_empty (o :: rest) cx cy s = some (0, o :: rest) ∧
    align_group_with_empty2 (o :: rest) cx cy s = some (0, o :: rest) := by
  constructor
  · simp only [align_group_with_empty, h]
  · simp only [align_group_with_empty2, compute_world_bbox, h]

/-- Instance of `C6_degenerate_geometry`: one fragment with an empty corner
list is left at the origin under the created anchor. -/
theorem C6_degenerate_geometry_witness :
    align_group_with_empty [Fragment.mk (Affine.mk Mat3.id 0) []] 2 3 50
      = some (0, [Fragment.mk (Affine.mk Mat3.id 0) []]) :=
  (C6_degenerate_geometry (Fragment.mk (Affine.mk Mat3.id 0) []) [] 2 3 50 rfl).1


/-- First fragment of the spec's worked example (identity world transform). -/
def exFrag1 : Fragment := ⟨⟨Mat3.id, 0⟩, [⟨10, 10, 2⟩, ⟨14, 12, 3⟩]⟩

/-- Second fragment of the spec's worked example. -/
def exFrag2 : Fragment := ⟨⟨Mat3.id, 0⟩, [⟨12, 11, 4⟩, ⟨20, 13, 5⟩]⟩

/-- Third fragment of the spec's worked example; the three together have union
bounding box `min = (10,10,2)`, `max = (20,14,6)`. -/
def exFrag3 : Fragment := ⟨⟨Mat3.id, 0⟩, [⟨11, 10, 3⟩, ⟨18, 14, 6⟩]⟩

/-- `exFrag1` after the example placement offset `(60,-37,-2)`. -/
def tFrag1 : Fragment := ⟨⟨Mat3.id, ⟨60, -37, -2⟩⟩, [⟨10, 10, 2⟩, ⟨14, 12, 3⟩]⟩

/-- `exFrag2` after the example placement offset `(60,-37,-2)`. -/
def tFrag2 : Fragment := ⟨⟨Mat3.id, ⟨60, -37, -2⟩⟩, [⟨12, 11, 4⟩, ⟨20, 13, 5⟩]⟩

/-- `exFrag3` after the example placement offset `(60,-37,-2)`. -/
def tFrag3 : Fragment := ⟨⟨Mat3.id, ⟨60, -37, -2⟩⟩, [⟨11, 10, 3⟩, ⟨18, 14, 6⟩]⟩

/-- C2: for every group with a well-defined union bounding box the placement
routine computes `offset = (target.x - center.x, target.y - center.y,
-min_corner.z)` and adds it to the freshly created anchor's current position
(the origin) - additive, not absolute-set - while the fragments move rigidly by
the same offset. -/
theorem C2_offset_formula (objs : List Fragment) (cx cy s : ℚ) (mn mx ctr : Vec3)
    (h : compute_world_bbox objs = some (mn, mx, ctr)) :
    align_group_with_empty objs cx cy s =
      some ((0 : Vec3) +
          ⟨(grid_cell_center cx cy s).x - ctr.x, (grid_cell_center cx cy s).y - ctr.y, -mn.z⟩,
        objs.map fun o => o.translate
          ⟨(grid_cell_center cx cy s).x - ctr.x, (grid_cell_center cx cy s).y - ctr.y, -mn.z⟩) :=
  align_group_with_empty_of_bbox objs cx cy s mn mx ctr h

set_option maxHeartbeats 1600000 in
/-- Instance of `C2_offset_formula` at the spec's worked example: combined
bounding box `min=(10,10,2), max=(20,14,6)`, target cell `(1,0)`, spacing `50`
gives target center `(75,-25,0)` and applied offset `(60,-37,-2)`. -/
theorem C2_offset_formula_witness :
    grid_cell_center 1 0 50 = ⟨75, -25, 0⟩ ∧
    align_group_with_empty [exFrag1, exFrag2, exFrag3] 1 0 50 =
      some (⟨60, -37, -2⟩, [tFrag1, tFrag2, tFrag3]) := by
  have h := C2_offset_formula [exFrag1, exFrag2, exFrag3] 1 0 50 ⟨10, 10, 2⟩ ⟨20, 14, 6⟩
    ⟨15, 12, 4⟩ (by
      norm_num [compute_world_bbox, worldCoords, exFrag1, exFrag2, exFrag3, Affine.apply,
        Mat3.mulVec, Mat3.id, Vec3.dot, Vec3.add_def, Vec3.smul, Vec3.zero_def, min_def, max_def])
  refine ⟨by norm_num [grid_cell_center], h.trans ?_⟩
  norm_num [grid_cell_center, exFrag1, exFrag2, exFrag3, tFrag1, tFrag2, tFrag3,
    Fragment.translate, Vec3.add_def, Vec3.zero_x, Vec3.zero_y, Vec3.zero_z]

/-- C1: after placing a non-empty group with a well-defined union bounding box,
the union world bounding box of the placed fragments has its X/Y center equal
to the target Grid Cell center and its minimum Z equal to 0 (both script
variants; the host preserving world transforms across reparenting and moving
children rigidly with the anchor is built into the model). -/
theorem C1_placement_invariant (objs : List Fragment) (cx cy s : ℚ) (mn mx ctr : Vec3)
    (h : compute_world_bbox objs = some (mn, mx, ctr)) :
    ∃ anchor objs2 mn2 mx2 ctr2,
      align_group_with_empty objs cx cy s = some (anchor, objs2) ∧
      align_group_with_empty2 objs cx cy s = some (anchor, objs2) ∧
      compute_world_bbox objs2 = some (mn2, mx2, ctr2) ∧
      ctr2.x = (grid_cell_center cx cy s).x ∧
      ctr2.y = (grid_cell_center cx cy s).y ∧
      mn2.z = 0 := by
  have h1 := align_group_with_empty_of_bbox objs cx cy s mn mx ctr h
  have h2 := compute_world_bbox_translate objs
    ⟨(grid_cell_center cx cy s).x - ctr.x, (grid_cell_center cx cy s).y - ctr.y, -mn.z⟩
    mn mx ctr h
  refine ⟨_, _, _, _, _, h1, (align_group_with_empty2_eq objs cx cy s).trans h1, h2, ?_, ?_, ?_⟩
  · show ctr.x + ((grid_cell_center cx cy s).x - ctr.x) = (grid_cell_center cx cy s).x
    ring
  · show ctr.y + ((grid_cell_center cx cy s).y - ctr.y) = (grid_cell_center cx cy s).y
    ring
  · show mn.z + -mn.z = 0
    ring

set_option maxHeartbeats 1600000 in
/-- Instance of `C1_placement_invariant` at the spec's worked example. -/
theorem C1_placement_invariant_witness :
    ∃ anchor objs2 mn2 mx2 ctr2,
      align_group_with_empty [exFrag1, exFrag2, exFrag3] 1 0 50 = some (anchor, objs2) ∧
      align_group_with_empty2 [exFrag1, exFrag2, exFrag3] 1 0 50 = some (anchor, objs2) ∧
      compute_world_bbox objs2 = some (mn2, mx2, ctr2) ∧
      ctr2.x = (grid_cell_center 1 0 50).x ∧
      ctr2.y = (grid_cell_center 1 0 50).y ∧
      mn2.z = 0 :=
  C1_placement_invariant [exFrag1, exFrag2, exFrag3] 1 0 50 ⟨10, 10, 2⟩ ⟨20, 14, 6⟩
    ⟨15, 12, 4⟩ (by
      norm_num [compute_world_bbox, worldCoords, exFrag1, exFrag2, exFrag3, Affine.apply,
        Mat3.mulVec, Mat3.id, Vec3.dot, Vec3.add_def, Vec3.smul, Vec3.zero_def, min_def, max_def])

/-- C7: placement is idempotent: re-running either variant on the group it just
placed, with the same target cell and spacing, computes a zero offset, so the
second anchor stays at the origin and every fragment keeps its position (the
bounding box is recomputed from current geometry, not from stored offsets). -/
theorem C7_idempotent (objs objs2 : List Fragment) (cx cy s : ℚ) (a : Vec3)
    (h : align_group_with_empty objs cx cy s = some (a, objs2)) :
    align_group_with_empty objs2 cx cy s = some (0, objs2) ∧
    align_group_with_empty2 objs2 cx cy s = some (0, objs2) := by
  suffices hh : align_group_with_empty objs2 cx cy s = some (0, objs2) by
    exact ⟨hh, (align_group_with_empty2_eq objs2 cx cy s).trans hh⟩
  cases objs with
  | nil => simp [align_group_with_empty] at h
  | cons o rest =>
    cases hc : compute_world_bbox (o :: rest) with
    | none =>
      have hw := worldCoords_nil_of_bbox_none _ hc
      simp only [align_group_with_empty, hw, Option.some.injEq, Prod.mk.injEq] at h
      obtain ⟨ha, hobjs2⟩ := h
      subst hobjs2
      simp only [align_group_with_empty, hw]
    | some trip =>
      obtain ⟨mn, mx, ctr⟩ := trip
      have h1 := align_group_with_empty_of_bbox (o :: rest) cx cy s mn mx ctr hc
      rw [h1] at h
      simp only [Option.some.injEq, Prod.mk.injEq] at h
      obtain ⟨ha, hobjs2⟩ := h
      subst hobjs2
      have h2 := compute_world_bbox_translate (o :: rest)
        ⟨(grid_cell_center cx cy s).x - ctr.x, (grid_cell_center cx cy s).y - ctr.y, -mn.z⟩
        mn mx ctr hc
      have h3 := align_group_with_empty_of_bbox
        ((o :: rest).map fun o => o.translate
          ⟨(grid_cell_center cx cy s).x - ctr.x, (grid_cell_center cx cy s).y - ctr.y, -mn.z⟩)
        cx cy s
        (mn + ⟨(grid_cell_center cx cy s).x - ctr.x, (grid_cell_center cx cy s).y - ctr.y, -mn.z⟩)
        (mx + ⟨(grid_cell_center cx cy s).x - ctr.x, (grid_cell_center cx cy s).y - ctr.y, -mn.z⟩)
        (ctr + ⟨(grid_cell_center cx cy s).x - ctr.x, (grid_cell_center cx cy s).y - ctr.y, -mn.z⟩)
        h2
      rw [h3]
      have hoff :
          (⟨(grid_cell_center cx cy s).x -
              (ctr + ⟨(grid_cell_center cx cy s).x - ctr.x, (grid_cell_center cx cy s).y - ctr.y,
                -mn.z⟩).x,
            (grid_cell_center cx cy s).y -
              (ctr + ⟨(grid_cell_center cx cy s).x - ctr.x, (grid_cell_center cx cy s).y - ctr.y,
                -mn.z⟩).y,
            -(mn + ⟨(grid_cell_center cx cy s).x - ctr.x, (grid_cell_center cx cy s).y - ctr.y,
                -mn.z⟩).z⟩ : Vec3) = 0 := by
        apply Vec3.ext' <;>
          simp only [Vec3.add_x, Vec3.add_y, Vec3.add_z, Vec3.zero_def] <;> ring
      rw [hoff]
      simp [Fragment.translate_zero]

set_option maxHeartbeats 1600000 in
/-- Instance of `C7_idempotent`: re-placing the already-placed example group
leaves the anchor at the origin and every fragment unchanged. -/
theorem C7_idempotent_witness :
    align_group_with_empty [tFrag1, tFrag2, tFrag3] 1 0 50
      = some (0, [tFrag1, tFrag2, tFrag3]) ∧
    align_group_with_empty2 [tFrag1, tFrag2, tFrag3] 1 0 50
      = some (0, [tFrag1, tFrag2, tFrag3]) :=
  C7_idempotent [exFrag1, exFrag2, exFrag3] [tFrag1, tFrag2, tFrag3] 1 0 50 ⟨60, -37, -2⟩ (by
    have h := align_group_with_empty_of_bbox [exFrag1, exFrag2, exFrag3] 1 0 50
      ⟨10, 10, 2⟩ ⟨20, 14, 6⟩ ⟨15, 12, 4⟩ (by
        norm_num [compute_world_bbox, worldCoords, exFrag1, exFrag2, exFrag3, Affine.apply,
          Mat3.mulVec, Mat3.id, Vec3.dot, Vec3.add_def, Vec3.smul, Vec3.zero_def, min_def,
          max_def])
    refine h.trans ?_
    norm_num [grid_cell_center, exFrag1, exFrag2, exFrag3, tFrag1, tFrag2, tFrag3,
      Fragment.translate, Vec3.add_def, Vec3.zero_x, Vec3.zero_y, Vec3.zero_z])

theorem foldl_bbox_acc_some (cs : List Vec3) (lo hi : Vec3) :
    cs.foldl bbox_acc (some (lo, hi)) =
      some (⟨(cs.map Vec3.x).foldl min lo.x, (cs.map Vec3.y).foldl min lo.y,
              (cs.map Vec3.z).foldl min lo.z⟩,
            ⟨(cs.map Vec3.x).foldl max hi.x, (cs.map Vec3.y).foldl max hi.y,
              (cs.map Vec3.z).foldl max hi.z⟩) := by
  induction cs generalizing lo hi with
  | nil => rfl
  | cons p ps ih => simp only [List.foldl_cons, List.map_cons, bbox_acc, ih]

theorem foldl_min_le_init (l : List ℚ) (a : ℚ) : l.foldl min a ≤ a := by
  induction l generalizing a with
  | nil => exact le_refl a
  | cons b bs ih => exact le_trans (ih (min a b)) (min_le_left a b)

theorem foldl_min_le_mem (l : List ℚ) : ∀ (a q : ℚ), q ∈ l → l.foldl min a ≤ q := by
  induction l with
  | nil => intro a q hq; cases hq
  | cons b bs ih =>
    intro a q hq
    rcases List.mem_cons.mp hq with h | h
    · subst h
      exact le_trans (foldl_min_le_init bs (min a q)) (min_le_right a q)
    · exact ih (min a b) q h

theorem le_foldl_max_init (l : List ℚ) (a : ℚ) : a ≤ l.foldl max a := by
  induction l generalizing a with
  | nil => exact le_refl a
  | cons b bs ih => exact le_trans (le_max_left a b) (ih (max a b))

theorem le_foldl_max_mem (l : List ℚ) : ∀ (a q : ℚ), q ∈ l → q ≤ l.foldl max a := by
  induction l with
  | nil => intro a q hq; cases hq
  | cons b bs ih =>
    intro a q hq
    rcases List.mem_cons.mp hq with h | h
    · subst h
      exact le_trans (le_max_right a q) (le_foldl_max_init bs (max a q))
    · exact ih (max a b) q h

/-- C4: the union bounding box is computed by transforming every fragment's
local bound-box corners to world space and accumulating the component-wise
minimum and maximum over all of them - `compute_world_bbox` coincides with the
spec-worded accumulation `union_bbox_spec` - the returned center is
`(min_corner + max_corner) / 2`, and the corners really bound every collected
world coordinate component-wise. -/
theorem C4_union_bbox (objs : List Fragment) :
    compute_world_bbox objs = union_bbox_spec objs ∧
    ∀ mn mx ctr, compute_world_bbox objs = some (mn, mx, ctr) →
      ctr = Vec3.smul (1 / 2) (mn + mx) ∧
      ∀ p ∈ worldCoords objs,
        mn.x ≤ p.x ∧ mn.y ≤ p.y ∧ mn.z ≤ p.z ∧ p.x ≤ mx.x ∧ p.y ≤ mx.y ∧ p.z ≤ mx.z := by
  constructor
  · cases hw : worldCoords objs with
    | nil => simp [compute_world_bbox, union_bbox_spec, hw]
    | cons c cs =>
      simp only [compute_world_bbox, union_bbox_spec, hw, List.foldl_cons]
      rw [show bbox_acc none c = some (c, c) from rfl, foldl_bbox_acc_some]
  · intro mn mx ctr h
    cases hw : worldCoords objs with
    | nil => rw [compute_world_bbox_none objs hw] at h; cases h
    | cons c cs =>
      rw [compute_world_bbox_eq objs c cs hw] at h
      simp only [Option.some.injEq, Prod.mk.injEq] at h
      obtain ⟨hmn, hmx, hctr⟩ := h
      subst hmn hmx hctr
      refine ⟨rfl, ?_⟩
      intro p hp
      rcases List.mem_cons.mp hp with hp | hp
      · subst hp
        exact ⟨foldl_min_le_init _ _, foldl_min_le_init _ _, foldl_min_le_init _ _,
          le_foldl_max_init _ _, le_foldl_max_init _ _, le_foldl_max_init _ _⟩
      · exact ⟨foldl_min_le_mem _ _ _ (List.mem_map_of_mem Vec3.x hp),
          foldl_min_le_mem _ _ _ (List.mem_map_of_mem Vec3.y hp),
          foldl_min_le_mem _ _ _ (List.mem_map_of_mem Vec3.z hp),
          le_foldl_max_mem _ _ _ (List.mem_map_of_mem Vec3.x hp),
          le_foldl_max_mem _ _ _ (List.mem_map_of_mem Vec3.y hp),
          le_foldl_max_mem _ _ _ (List.mem_map_of_mem Vec3.z hp)⟩

set_option maxHeartbeats 1600000 in
/-- Instance of `C4_union_bbox` at the spec's worked example: the code's
bounding box agrees with the spec-worded accumulation, and the example center
`(15,12,4)` is the midpoint of `(10,10,2)` and `(20,14,6)`. -/
theorem C4_union_bbox_witness :
    compute_world_bbox [exFrag1, exFrag2, exFrag3] = union_bbox_spec [exFrag1, exFrag2, exFrag3] ∧
    (⟨15, 12, 4⟩ : Vec3) = Vec3.smul (1 / 2) ((⟨10, 10, 2⟩ : Vec3) + ⟨20, 14, 6⟩) := by
  have h := C4_union_bbox [exFrag1, exFrag2, exFrag3]
  refine ⟨h.1, (h.2 ⟨10, 10, 2⟩ ⟨20, 14, 6⟩ ⟨15, 12, 4⟩ (by
    norm_num [compute_world_bbox, worldCoords, exFrag1, exFrag2, exFrag3, Affine.apply,
      Mat3.mulVec, Mat3.id, Vec3.dot, Vec3.add_def, Vec3.smul, Vec3.zero_def, min_def,
      max_def])).1⟩

/-! ## Claim theorems for the LOD-editing session -/

/-- Example reference object of a small two-object scene. -/
def objA : MeshObj := ⟨"A", ⟨5, 6, 7⟩, Mat3.id, [⟨1, 1, 1⟩, ⟨3, 3, 3⟩]⟩

/-- Example second object of the small scene. -/
def objB : MeshObj := ⟨"B", ⟨100, 0, 0⟩, Mat3.id, [⟨0, 0, 0⟩]⟩

/-- Example scene state with `objA` selected as the reference and no session
data stored yet. -/
def stEx : LODState := ⟨[objA, objB], [], [], some "A", 0⟩

/-- C10: with no stored positions (no active session) both Restore Original
Position and Register New Meshes return a cancelled result and leave the whole
state - objects, stored positions, stored geometry, cumulative offset -
unchanged (identical logic in both script variants). -/
theorem C10_no_session_error_path (st : LODState) (h : st.original_positions_store = []) :
    restoreOriginalPosition st = (OpResult.CANCELLED, st) ∧
    registerNewMeshes st = (OpResult.CANCELLED, st) := by
  constructor
  · simp only [restoreOriginalPosition, h]
  · simp only [registerNewMeshes, h]

/-- Instance of `C10_no_session_error_path` at the example scene before any
move: both error paths cancel and change nothing. -/
theorem C10_no_session_error_path_witness :
    restoreOriginalPosition stEx = (OpResult.CANCELLED, stEx) ∧
    registerNewMeshes stEx = (OpResult.CANCELLED, stEx) :=
  C10_no_session_error_path stEx rfl

theorem vsum_nil : vsum [] = 0 := rfl

theorem foldl_add_shift (l : List Vec3) (a : Vec3) :
    l.foldl (· + ·) a = a + l.foldl (· + ·) 0 := by
  induction l generalizing a with
  | nil => simp
  | cons b bs ih =>
    simp only [List.foldl_cons]
    rw [ih (a + b), ih (0 + b), zero_add, add_assoc]

theorem vsum_cons (v : Vec3) (l : List Vec3) : vsum (v :: l) = v + vsum l := by
  simp only [vsum, List.foldl_cons]
  rw [foldl_add_shift l (0 + v), zero_add]

theorem Mat3.mulVec_add (m : Mat3) (a b : Vec3) :
    m.mulVec (a + b) = m.mulVec a + m.mulVec b := by
  apply Vec3.ext' <;> simp [Mat3.mulVec, Vec3.dot, Vec3.add_def] <;> ring

theorem Mat3.mulVec_zero (m : Mat3) : m.mulVec 0 = 0 := by
  apply Vec3.ext' <;> simp [Mat3.mulVec, Vec3.dot, Vec3.zero_def]

theorem Mat3.mulVec_smul (m : Mat3) (q : ℚ) (v : Vec3) :
    m.mulVec (Vec3.smul q v) = Vec3.smul q (m.mulVec v) := by
  apply Vec3.ext' <;> simp [Mat3.mulVec, Vec3.dot, Vec3.smul] <;> ring

theorem Vec3.smul_zero_left (a : Vec3) : Vec3.smul 0 a = 0 := by
  apply Vec3.ext' <;> simp [Vec3.smul, Vec3.zero_def]

theorem vsum_map_affine (m : Mat3) (t : Vec3) (l : List Vec3) :
    vsum (l.map fun v => m.mulVec v + t) = m.mulVec (vsum l) + Vec3.smul (l.length : ℚ) t := by
  induction l with
  | nil =>
    simp [vsum_nil, Mat3.mulVec_zero, Vec3.smul_zero_left]
  | cons v vs ih =>
    simp only [List.map_cons, vsum_cons, ih, List.length_cons, Mat3.mulVec_add]
    have hs : Vec3.smul ((vs.length + 1 : ℕ) : ℚ) t = Vec3.smul (vs.length : ℚ) t + t := by
      apply Vec3.ext' <;> simp [Vec3.smul, Vec3.add_def] <;> ring
    rw [hs]
    abel

/-- The world-space geometry center the script computes (the local vertex mean
pushed through `matrix_world`) equals the mean of the world-transformed
vertices, for a non-empty mesh. -/
theorem world_mean_eq (o : MeshObj) (h : o.verts ≠ []) :
    o.world (geometryCenter o.verts)
      = Vec3.smul (1 / (o.verts.length : ℚ)) (vsum (o.verts.map o.world)) := by
  have hn : ((o.verts.length : ℚ)) ≠ 0 := by
    have hne : o.verts.length ≠ 0 := by
      intro h0
      exact h (List.length_eq_zero.mp h0)
    exact_mod_cast hne
  have hgc : geometryCenter o.verts = Vec3.smul (1 / (o.verts.length : ℚ)) (vsum o.verts) := by
    cases hvv : o.verts with
    | nil => exact absurd hvv h
    | cons a l => rfl
  have hmap : o.verts.map o.world = o.verts.map (fun p => o.lin.mulVec p + o.location) := rfl
  rw [hgc, hmap, vsum_map_affine, MeshObj.world, Mat3.mulVec_smul]
  apply Vec3.ext' <;>
    simp only [Vec3.add_x, Vec3.add_y, Vec3.add_z, Vec3.smul_x, Vec3.smul_y, Vec3.smul_z] <;>
    field_simp <;> ring

theorem findObj_map_name_preserving (objs : List MeshObj) (g : MeshObj → MeshObj)
    (hg : ∀ o, (g o).name = o.name) (n : String) :
    findObj (objs.map g) n = (findObj objs n).map g := by
  simp only [findObj, List.find?_map]
  have hp : ((fun o => o.name == n) ∘ g) = (fun o : MeshObj => o.name == n) := by
    funext o
    simp [Function.comp, hg o]
  rw [hp]

/-- C9: after a successful Move Reference to Origin, the reference object's
location is exactly the origin, the stored scene offset equals the negation of
the reference's pre-move world-space geometry center - the mean of its
vertices transformed by its world matrix - and every other mesh object's
location has been increased by exactly that shared offset. -/
theorem C9_move_reference_to_origin (st : LODState) (rname : String) (ref : MeshObj)
    (hsel : st.selected_reference_name = some rname)
    (href : findObj st.objs rname = some ref)
    (hverts : ref.verts ≠ []) :
    (moveReferenceToOrigin st).1 = OpResult.FINISHED ∧
    (moveReferenceToOrigin st).2.scene_offset_vector
      = -(Vec3.smul (1 / (ref.verts.length : ℚ)) (vsum (ref.verts.map ref.world))) ∧
    (∃ r2, findObj (moveReferenceToOrigin st).2.objs rname = some r2 ∧ r2.location = 0) ∧
    ∀ o ∈ st.objs, o.name ≠ rname →
      { o with location := o.location + (moveReferenceToOrigin st).2.scene_offset_vector }
        ∈ (moveReferenceToOrigin st).2.objs := by
  have hrefname : ref.name = rname := by
    have := List.find?_some href
    simpa [beq_iff_eq] using this
  simp only [moveReferenceToOrigin, hsel, href]
  refine ⟨trivial, ?_, ?_, ?_⟩
  · exact congrArg Neg.neg (world_mean_eq ref hverts)
  · rw [findObj_map_name_preserving st.objs _ (fun o => by split <;> rfl) rname, href]
    refine ⟨_, rfl, ?_⟩
    simp [hrefname]
  · intro o ho hname
    have : (fun o : MeshObj =>
        if o.name = rname then
          { o with verts := o.verts.map (fun v => v - geometryCenter ref.verts), location := 0 }
        else { o with location := o.location + -ref.world (geometryCenter ref.verts) }) o
        = { o with location := o.location + -ref.world (geometryCenter ref.verts) } := by
      simp [hname]
    exact this ▸ List.mem_map_of_mem _ ho

/-- Instance of `C9_move_reference_to_origin` at the example scene. -/
theorem C9_move_reference_to_origin_witness :
    (moveReferenceToOrigin stEx).1 = OpResult.FINISHED ∧
    (moveReferenceToOrigin stEx).2.scene_offset_vector
      = -(Vec3.smul (1 / (objA.verts.length : ℚ)) (vsum (objA.verts.map objA.world))) ∧
    (∃ r2, findObj (moveReferenceToOrigin stEx).2.objs "A" = some r2 ∧ r2.location = 0) ∧
    ∀ o ∈ stEx.objs, o.name ≠ "A" →
      { o with location := o.location + (moveReferenceToOrigin stEx).2.scene_offset_vector }
        ∈ (moveReferenceToOrigin stEx).2.objs :=
  C9_move_reference_to_origin stEx "A" objA rfl rfl (by
    intro h
    simpa [objA] using congrArg List.length h)

theorem lookup_eq_none_of_not_mem_keys {β : Type} (l : List (String × β)) (n : String)
    (h : n ∉ l.map Prod.fst) : l.lookup n = none := by
  induction l with
  | nil => rfl
  | cons p ps ih =>
    obtain ⟨k, b⟩ := p
    simp only [List.map_cons, List.mem_cons] at h
    push_neg at h
    obtain ⟨h1, h2⟩ := h
    have hbeq : (n == k) = false := beq_eq_false_iff_ne.mpr h1
    simp only [List.lookup, hbeq]
    exact ih h2

theorem foldl_setLoc_eq_map (stored : List (String × Vec3)) (cur : List MeshObj)
    (hnd : (stored.map Prod.fst).Nodup) :
    stored.foldl (fun os p => setLoc os p.1 p.2) cur
      = cur.map (fun o =>
          match stored.lookup o.name with
          | some l => { o with location := l }
          | none => o) := by
  induction stored generalizing cur with
  | nil =>
    simp [List.lookup]
  | cons p ps ih =>
    obtain ⟨k, l⟩ := p
    simp only [List.map_cons, List.nodup_cons] at hnd
    obtain ⟨hk, hnd'⟩ := hnd
    simp only [List.foldl_cons]
    rw [ih (setLoc cur k l) hnd']
    simp only [setLoc, List.map_map]
    congr 1
    funext o
    by_cases ho : o.name = k
    · simp only [Function.comp, ho, if_true, List.lookup, beq_self_eq_true,
        lookup_eq_none_of_not_mem_keys ps k hk]
    · have hbeq : (o.name == k) = false := beq_eq_false_iff_ne.mpr ho
      simp only [Function.comp, ho, if_false, List.lookup, hbeq]

theorem lookup_pairs_self (objs : List MeshObj) (hnd : (objs.map MeshObj.name).Nodup) :
    ∀ o ∈ objs, (objs.map (fun o => (o.name, o.location))).lookup o.name = some o.location := by
  induction objs with
  | nil => intro o ho; cases ho
  | cons a rest ih =>
    simp only [List.map_cons, List.nodup_cons] at hnd
    obtain ⟨ha, hnd'⟩ := hnd
    intro o ho
    rcases List.mem_cons.mp ho with h | h
    · subst h
      simp [List.lookup]
    · have hbeq : (o.name == a.name) = false := by
        refine beq_eq_false_iff_ne.mpr (fun he => ha ?_)
        exact he ▸ List.mem_map_of_mem MeshObj.name h
      simp only [List.map_cons, List.lookup, hbeq]
      exact ih hnd' o h

theorem findObj_unique (objs : List MeshObj) (hnd : (objs.map MeshObj.name).Nodup)
    (rname : String) (ref o : MeshObj) (href : findObj objs rname = some ref)
    (ho : o ∈ objs) (hname : o.name = rname) : o = ref := by
  have hrefmem : ref ∈ objs := List.mem_of_find?_eq_some href
  have hrefname : ref.name = rname := by
    simpa [beq_iff_eq] using List.find?_some href
  exact List.inj_on_of_nodup_map hnd ho hrefmem (by rw [hname, hrefname])

theorem restoreOriginalPosition_eq (st : LODState) (h : st.original_positions_store ≠ []) :
    restoreOriginalPosition st =
      (OpResult.FINISHED,
        { st with
            objs := st.original_geometry_store.foldl (fun os p => setVerts os p.1 p.2)
              (st.original_positions_store.foldl (fun os p => setLoc os p.1 p.2) st.objs)
            original_positions_store := []
            original_geometry_store := []
            scene_offset_vector := 0 }) := by
  cases hsp : st.original_positions_store with
  | nil => exact absurd hsp h
  | cons q qs => simp only [restoreOriginalPosition, hsp]

/-- C8: Move Reference to Origin followed by Restore Original Position (with no
intervening renames or deletions) returns every mesh object's location to its
pre-move value, restores the reference object's original vertex geometry from
the stored mesh copy, and clears all stored session data - positions, geometry
and the cumulative offset (identical logic in both script variants). -/
theorem C8_move_restore_roundtrip (st : LODState) (rname : String) (ref : MeshObj)
    (hnd : (st.objs.map MeshObj.name).Nodup)
    (hsel : st.selected_reference_name = some rname)
    (href : findObj st.objs rname = some ref) :
    (moveReferenceToOrigin st).1 = OpResult.FINISHED ∧
    restoreOriginalPosition (moveReferenceToOrigin st).2 =
      (OpResult.FINISHED, ⟨st.objs, [], [], st.selected_reference_name, 0⟩) := by
  have hrefname : ref.name = rname := by
    simpa [beq_iff_eq] using List.find?_some href
  have hrefmem : ref ∈ st.objs := List.mem_of_find?_eq_some href
  have hne : st.objs ≠ [] := List.ne_nil_of_mem hrefmem
  simp only [moveReferenceToOrigin, hsel, href]
  refine ⟨trivial, ?_⟩
  rw [restoreOriginalPosition_eq _ (by simpa using hne)]
  have hkeys : ((st.objs.map (fun o => (o.name, o.location))).map Prod.fst).Nodup := by
    simpa [List.map_map, Function.comp] using hnd
  rw [foldl_setLoc_eq_map _ _ hkeys, List.map_map]
  simp only [Prod.mk.injEq, LODState.mk.injEq, List.foldl_cons, List.foldl_nil, setVerts,
    List.map_map, true_and, and_true]
  refine Eq.trans (List.map_congr_left fun o hom => ?_) (List.map_id st.objs)
  by_cases ho : o.name = rname
  · have ho' : o = ref := findObj_unique st.objs hnd rname ref o href hom ho
    subst ho'
    subst ho
    simp [Function.comp, lookup_pairs_self st.objs hnd o hom]
  · have hones : o.name ≠ ref.name := fun he => ho (he.trans hrefname)
    simp [Function.comp, ho, hones, lookup_pairs_self st.objs hnd o hom]

/-- Instance of `C8_move_restore_roundtrip` at the example scene: moving and
restoring returns both objects and clears the session. -/
theorem C8_move_restore_roundtrip_witness :
    (moveReferenceToOrigin stEx).1 = OpResult.FINISHED ∧
    restoreOriginalPosition (moveReferenceToOrigin stEx).2 =
      (OpResult.FINISHED, ⟨stEx.objs, [], [], stEx.selected_reference_name, 0⟩) :=
  C8_move_restore_roundtrip stEx "A" objA (by decide) rfl rfl
